import Mathlib

/-!
A shallow embedding of the OBS "Audio Delay Meter" filter
(`src/audio-delay-meter.c`) together with proofs about its ring-buffer
accumulator, its signal-conditioning stage (pre-emphasis and Hann window),
its bounded-lag normalized cross-correlation search and the measurement
orchestration in `perform_measure`.

Floating-point samples are modelled as exact real numbers (`ℝ`).  The purely
structural ring-buffer operations never compute on sample values, so they are
polymorphic in the sample type; concrete witnesses use `ℚ`, where equality is
decidable.  The C `float` constants 0.95, 0.6 and 1e-8 are modelled as the
exact rationals 19/20, 3/5 and 10⁻⁸.  Host-side OBS plumbing (logging, the
UI task queue, timestamps, string formatting of numbers) is not part of the
measurement algorithm and is modelled only insofar as the claims mention it:
failure reason strings are kept verbatim, while the numeric text produced by
`snprintf` on success is abstracted by `success_text`, and the choice among
the three directional note messages is recorded in the `last_note_dir` field.
-/

/-- Constant `BUFFER_SECONDS` from the source (line 22). -/
def BUFFER_SECONDS : ℕ := 5

/-- Constant `MIN_WINDOW_MS` from the source (line 23). -/
def MIN_WINDOW_MS : ℕ := 200

/-- Constant `MAX_WINDOW_MS` from the source (line 24). -/
def MAX_WINDOW_MS : ℕ := 3000

/-- Constant `DEFAULT_WINDOW_MS` from the source (line 25). -/
def DEFAULT_WINDOW_MS : ℕ := 1000

/-- Constant `MAX_LAG_MS` from the source (line 26). -/
def MAX_LAG_MS : ℕ := 1500

/-- Lower bound of the "Max Lag Search (ms)" slider added by
`delay_meter_properties` (line 614); the source uses the literal 50 there. -/
def MIN_LAG_MS : ℕ := 50

/-- Constant `MIN_CORR_THRESHOLD` from the source (line 27); `0.6f` is
modelled as the exact rational 3/5. -/
noncomputable def MIN_CORR_THRESHOLD : ℝ := 3 / 5

/-- `ms_to_samples` (lines 68-71): `(ms * sample_rate + 500) / 1000` in
unsigned integer arithmetic (truncating division). -/
def ms_to_samples (ms sample_rate : ℕ) : ℕ :=
  (ms * sample_rate + 500) / 1000

/-- One circular buffer of the accumulator: the fields `*_buffer`,
`capacity`, `*_pos` and `*_count` of `struct delay_meter_data` for one
stream.  The backing array is modelled as a total function on indices
(reads are taken modulo `capacity` everywhere in the source). -/
structure RingBuf (α : Type) where
  capacity : ℕ
  buf : ℕ → α
  pos : ℕ
  count : ℕ

/-- One iteration of the loop body of `ring_write` (lines 75-83): store the
sample at the cursor, advance the cursor modulo `capacity`, and saturate the
count at `capacity`. -/
def ringWrite1 {α : Type} (r : RingBuf α) (x : α) : RingBuf α :=
  { capacity := r.capacity
    buf := fun j => if j = r.pos then x else r.buf j
    pos := (r.pos + 1) % r.capacity
    count := if r.count < r.capacity then r.count + 1 else r.count }

/-- `ring_write` (lines 75-83): write the frames in order, one at a time. -/
def ring_write {α : Type} (r : RingBuf α) (xs : List α) : RingBuf α :=
  xs.foldl ringWrite1 r

/-- The copy loop of `copy_recent` (lines 140-146): read `frames` samples
starting at `(pos + capacity - frames) % capacity`, each index reduced
modulo `capacity`, into a fresh linear sequence. -/
def read_recent {α : Type} (buf : ℕ → α) (capacity pos frames : ℕ) : List α :=
  (List.range frames).map
    (fun i => buf (((pos + capacity - frames) % capacity + i) % capacity))

/-- The samples a buffer currently exposes: its most recent `count` samples,
oldest first, read starting at `(pos + capacity - count) % capacity`, which
is `(write_cursor - count) mod capacity` computed without underflow. -/
def retrievable {α : Type} (r : RingBuf α) : List α :=
  read_recent r.buf r.capacity r.pos r.count

/-- A freshly allocated buffer as produced by `delay_meter_create`
(lines 569-573): `bzalloc` yields zeroed storage and both cursor and count
start at 0.  `default` is 0 for `ℝ` and `ℚ`. -/
def initRing (α : Type) [Inhabited α] (c : ℕ) : RingBuf α :=
  { capacity := c, buf := fun _ => default, pos := 0, count := 0 }

/-- The reachability invariant of a ring buffer: `h` is the complete list of
samples ever written to it.  The count is the write total saturated at
`capacity`, the cursor is the write total modulo `capacity`, and slot
`(pos + (capacity - count) + j) % capacity` holds the `j`-th oldest of the
last `count` written samples. -/
def RingInv {α : Type} [Inhabited α] (r : RingBuf α) (h : List α) : Prop :=
  0 < r.capacity ∧
  r.count = min h.length r.capacity ∧
  r.pos = h.length % r.capacity ∧
  ∀ j, j < r.count →
    r.buf ((r.pos + (r.capacity - r.count) + j) % r.capacity) =
      h.getD (h.length - r.count + j) default

/-- Helper for `apply_pre_emphasis`: the loop of lines 102-106 with the
running `prev` holding the previous original (unfiltered) sample. -/
def preEmphGo {α : Type} [Field α] (prev : α) : List α → List α
  | [] => []
  | x :: rest => (x - (19 / 20) * prev) :: preEmphGo x rest

/-- `apply_pre_emphasis` (lines 96-107): first-order differencing filter
`y[i] = x[i] - 0.95 * x[i-1]` (with the original `x[i-1]`), `y[0] = x[0]`,
and a no-op on fewer than 2 samples.  `PRE_EMPHASIS_ALPHA = 0.95f` is
modelled as 19/20. -/
def apply_pre_emphasis {α : Type} [Field α] (l : List α) : List α :=
  if l.length < 2 then l
  else
    match l with
    | [] => l
    | x :: rest => x :: preEmphGo x rest

/-- `apply_hann_window` (lines 109-118): multiply sample `i` of `N` by
`0.5 * (1 - cos (2 π i / (N - 1)))`; no-op when `N ≤ 1`. -/
noncomputable def apply_hann_window (l : List ℝ) : List ℝ :=
  if l.length ≤ 1 then l
  else
    (List.range l.length).map
      (fun i => l.getD i 0 *
        (1 / 2 * (1 - Real.cos (2 * Real.pi * i / ((l.length : ℝ) - 1)))))

/-- The mean computation of `estimate_delay` (lines 192-198): sum of the
first `frames` samples divided by `frames`. -/
noncomputable def signal_mean (l : List ℝ) (frames : ℕ) : ℝ :=
  (∑ i ∈ Finset.range frames, l.getD i 0) / frames

/-- The three per-lag accumulators of `estimate_delay` (lines 211-222):
`(sum_ab, sum_a2, sum_b2)` over the overlap with both signals centred on
their global means. -/
noncomputable def corr_sums (ref tgt : List ℝ) (ref_mean tgt_mean : ℝ)
    (start_a start_b overlap : ℕ) : ℝ × ℝ × ℝ :=
  (∑ i ∈ Finset.range overlap,
      (ref.getD (start_a + i) 0 - ref_mean) * (tgt.getD (start_b + i) 0 - tgt_mean),
   ∑ i ∈ Finset.range overlap,
      (ref.getD (start_a + i) 0 - ref_mean) * (ref.getD (start_a + i) 0 - ref_mean),
   ∑ i ∈ Finset.range overlap,
      (tgt.getD (start_b + i) 0 - tgt_mean) * (tgt.getD (start_b + i) 0 - tgt_mean))

/-- The body of one iteration of the lag loop of `estimate_delay`
(lines 205-228) up to the correlation value: `none` when the lag is skipped,
either because the overlap `frames - |lag|` is below 1024 or because the
denominator `sqrt (sum_a2 * sum_b2)` is below 1e-8; otherwise the Pearson
correlation at this lag. -/
noncomputable def corr_at (ref tgt : List ℝ) (frames : ℕ)
    (ref_mean tgt_mean : ℝ) (lag : ℤ) : Option ℝ :=
  let abs_lag := lag.natAbs
  let overlap := frames - abs_lag
  if overlap < 1024 then none
  else
    let start_a := if 0 ≤ lag then 0 else abs_lag
    let start_b := if 0 ≤ lag then abs_lag else 0
    let s := corr_sums ref tgt ref_mean tgt_mean start_a start_b overlap
    let denom := Real.sqrt (s.2.1 * s.2.2)
    if denom < 1e-8 then none
    else some (s.1 / denom)

/-- The best-so-far update of the lag loop (lines 229-238) on the state
`(best_corr, best_lag, lag_count)`: a skipped lag leaves the state
unchanged; a computed correlation increments `lag_count` and replaces the
best pair only under the strict comparison `corr > best_corr`. -/
noncomputable def lag_step (corrf : ℤ → Option ℝ) (st : ℝ × ℤ × ℕ) (lag : ℤ) :
    ℝ × ℤ × ℕ :=
  match corrf lag with
  | none => st
  | some corr =>
    if st.1 < corr then (corr, lag, st.2.2 + 1) else (st.1, st.2.1, st.2.2 + 1)

/-- The lags visited by the loop `for (int lag = -max_lag; lag <= max_lag;
++lag)` (line 205), in scan order. -/
def lag_candidates (max_lag : ℕ) : List ℤ :=
  (List.range (2 * max_lag + 1)).map (fun (k : ℕ) => (k : ℤ) - (max_lag : ℤ))

/-- The whole lag loop of `estimate_delay` starting from
`best_corr = -1.0`, `best_lag = 0`, `lag_count = 0` (lines 188-204). -/
noncomputable def lag_scan (corrf : ℤ → Option ℝ) (lags : List ℤ) : ℝ × ℤ × ℕ :=
  lags.foldl (lag_step corrf) (-1, 0, 0)

/-- The correlation search of `estimate_delay` (lines 188-239), as named in
the specification: global means computed once, then the scan over
`-max_lag … +max_lag`.  Returns `(best_corr, best_lag, lag_count)`. -/
noncomputable def find_best_lag (ref tgt : List ℝ) (frames max_lag : ℕ) :
    ℝ × ℤ × ℕ :=
  lag_scan
    (corr_at ref tgt frames (signal_mean ref frames) (signal_mean tgt frames))
    (lag_candidates max_lag)

/-- Which of the three directional `snprintf` branches of `perform_measure`
(lines 438-447) produced the notes. -/
inductive NoteDir : Type
  | lags
  | leads
  | aligned
deriving DecidableEq

/-- The branch condition of lines 438-447: `lags` when `delay_ms > 0`,
`leads` when `delay_ms < 0`, `aligned` otherwise. -/
noncomputable def note_dir (delay_ms : ℝ) : NoteDir :=
  if 0 < delay_ms then NoteDir.lags
  else if delay_ms < 0 then NoteDir.leads
  else NoteDir.aligned

/-- The skeleton of the success notes text of lines 438-447; the source
interpolates the target name and the millisecond value, which is numeric
text formatting and is not modelled. -/
noncomputable def success_notes (delay_ms : ℝ) : String :=
  if 0 < delay_ms then "Target lags reference"
  else if delay_ms < 0 then "Target leads reference"
  else "Target is aligned with reference"

/-- Stands for the `snprintf`-formatted display text
`"%+6.1f ms (correlation: %.3f)"` of line 436; the numeric formatting
itself is not modelled. -/
def success_text : String := "measured delay"

/-- The engine state of `struct delay_meter_data` (lines 30-58) as far as
the measurement algorithm observes it.  `hasTarget` models
`dm->target != NULL`; `last_note_dir` records which directional notes
branch last ran (`none` after a failure message). -/
structure DelayMeter where
  capacity : ℕ
  ref_buffer : ℕ → ℝ
  tgt_buffer : ℕ → ℝ
  ref_pos : ℕ
  tgt_pos : ℕ
  ref_count : ℕ
  tgt_count : ℕ
  sample_rate : ℕ
  window_ms : ℕ
  max_lag_ms : ℕ
  debug_enabled : Bool
  hasTarget : Bool
  last_delay_text : String
  last_time_text : String
  last_notes : String
  last_delay_ms : ℝ
  last_note_dir : Option NoteDir
  last_delay_valid : Bool

/-- The reference stream's circular buffer of a meter. -/
def refRing (dm : DelayMeter) : RingBuf ℝ :=
  { capacity := dm.capacity, buf := dm.ref_buffer
    pos := dm.ref_pos, count := dm.ref_count }

/-- The target stream's circular buffer of a meter. -/
def tgtRing (dm : DelayMeter) : RingBuf ℝ :=
  { capacity := dm.capacity, buf := dm.tgt_buffer
    pos := dm.tgt_pos, count := dm.tgt_count }

/-- `set_result` (lines 259-288): overwrite the three result strings and set
`last_delay_valid = true` (every failure path of `perform_measure` resets it
to `false` immediately afterwards).  `now` stands for the `strftime`
timestamp.  The structured view of the notes is cleared. -/
def set_result (dm : DelayMeter) (delay_text notes_text now : String) :
    DelayMeter :=
  { dm with
    last_delay_text := delay_text
    last_time_text := now
    last_notes := notes_text
    last_note_dir := none
    last_delay_valid := true }

/-- The `dm->last_delay_valid = false` statements on the failure paths of
`perform_measure` (lines 406, 420, 460). -/
def markInvalid (dm : DelayMeter) : DelayMeter :=
  { dm with last_delay_valid := false }

/-- The clamp of lines 185-186: `max_lag` converted from milliseconds and
then limited to `frames / 2` by the ternary
`max_lag > frames / 2 ? frames / 2 : max_lag`. -/
def search_max_lag (dm : DelayMeter) (frames : ℕ) : ℕ :=
  let max_lag := ms_to_samples dm.max_lag_ms dm.sample_rate
  if frames / 2 < max_lag then frames / 2 else max_lag

/-- `copy_recent` (lines 120-167): take
`frames = min (min ref_count tgt_count) window_frames`; fail when
`frames < 1024`; otherwise copy the last `frames` samples of each buffer
(unwrapping the circular layout) and apply pre-emphasis and then the Hann
window in place to both copies before returning them. -/
noncomputable def copy_recent (dm : DelayMeter) :
    Option (List ℝ × List ℝ × ℕ) :=
  let available := min dm.ref_count dm.tgt_count
  let window_frames := ms_to_samples dm.window_ms dm.sample_rate
  let frames := min available window_frames
  if frames < 1024 then none
  else
    some
      (apply_hann_window (apply_pre_emphasis
        (read_recent dm.ref_buffer dm.capacity dm.ref_pos frames)),
       apply_hann_window (apply_pre_emphasis
        (read_recent dm.tgt_buffer dm.capacity dm.tgt_pos frames)),
       frames)

/-- `estimate_delay` (lines 169-257): snapshot, correlation search, and the
threshold test `best_corr < MIN_CORR_THRESHOLD`; on success the delay in
milliseconds is `best_lag * 1000 / sample_rate` together with the best
correlation. -/
noncomputable def estimate_delay (dm : DelayMeter) : Option (ℝ × ℝ) :=
  match copy_recent dm with
  | none => none
  | some (ref, tgt, frames) =>
    let res := find_best_lag ref tgt frames (search_max_lag dm frames)
    if res.1 < MIN_CORR_THRESHOLD then none
    else some (((res.2.1 : ℝ) * 1000) / (dm.sample_rate : ℝ), res.1)

/-- `perform_measure` (lines 398-462): no-target check first, then the
1024-sample pre-check on both counts, then `estimate_delay`; every failure
stores a reason via `set_result` and clears `last_delay_valid`; success
stores the formatted result, the directional notes, `last_delay_ms` and
`last_delay_valid = true`.  The returned flag is the C return value. -/
noncomputable def perform_measure (dm : DelayMeter) (now : String) :
    DelayMeter × Bool :=
  if dm.hasTarget = false then
    (markInvalid (set_result dm "No target source"
      "Select a delayed source to compare against." now), false)
  else if ¬ (1024 ≤ dm.ref_count ∧ 1024 ≤ dm.tgt_count) then
    (markInvalid (set_result dm "Buffers too small"
      "Need more buffered audio from both reference and target before measuring." now),
     false)
  else
    match estimate_delay dm with
    | some (delay_ms, _corr) =>
      ({ set_result dm success_text (success_notes delay_ms) now with
          last_note_dir := some (note_dir delay_ms)
          last_delay_ms := delay_ms
          last_delay_valid := true }, true)
    | none =>
      (markInvalid (set_result dm
        "Insufficient correlation - check audio levels and similarity"
        "Insufficient correlation; ensure both sources carry similar program audio." now),
       false)

/-- The tunables read by `delay_meter_update` from the settings object. -/
structure Settings where
  window_ms : ℕ
  max_lag_ms : ℕ
  debug_enabled : Bool

/-- `delay_meter_update` (lines 383-396): the stored tunables are the
settings values, taken verbatim with no clamping. -/
def delay_meter_update (dm : DelayMeter) (s : Settings) : DelayMeter :=
  { dm with
    window_ms := s.window_ms
    max_lag_ms := s.max_lag_ms
    debug_enabled := s.debug_enabled }

/-- `delay_meter_create` (lines 560-589): capacity sized for
`BUFFER_SECONDS` of audio, zeroed buffers, cursors and counts at 0, the
tunables read from settings, and an invalid initial result. -/
def delay_meter_create (sample_rate window_ms max_lag_ms : ℕ)
    (debug hasTarget : Bool) : DelayMeter :=
  { capacity := ms_to_samples (BUFFER_SECONDS * 1000) sample_rate
    ref_buffer := fun _ => 0
    tgt_buffer := fun _ => 0
    ref_pos := 0
    tgt_pos := 0
    ref_count := 0
    tgt_count := 0
    sample_rate := sample_rate
    window_ms := window_ms
    max_lag_ms := max_lag_ms
    debug_enabled := debug
    hasTarget := hasTarget
    last_delay_text := "Ready..."
    last_time_text := ""
    last_notes := ""
    last_delay_ms := 0
    last_note_dir := none
    last_delay_valid := false }

/-- `delay_meter_filter_audio` (lines 516-536): reference frames are
appended via `ring_write` only while a target is connected; otherwise the
state is untouched. -/
def delay_meter_filter_audio (dm : DelayMeter) (xs : List ℝ) : DelayMeter :=
  if dm.hasTarget then
    let r := ring_write (refRing dm) xs
    { dm with ref_buffer := r.buf, ref_pos := r.pos, ref_count := r.count }
  else dm

/-- `capture_target` (lines 327-347): target frames are appended via
`ring_write`. -/
def capture_target (dm : DelayMeter) (xs : List ℝ) : DelayMeter :=
  let r := ring_write (tgtRing dm) xs
  { dm with tgt_buffer := r.buf, tgt_pos := r.pos, tgt_count := r.count }

/-- A meter whose two buffers (capacity 1024) are filled with the constant
sample 1 at sample rate 2048; used to exercise a successful snapshot. -/
def dmDemo : DelayMeter :=
  { capacity := 1024
    ref_buffer := fun _ => 1
    tgt_buffer := fun _ => 1
    ref_pos := 0
    tgt_pos := 0
    ref_count := 1024
    tgt_count := 1024
    sample_rate := 2048
    window_ms := 1000
    max_lag_ms := 500
    debug_enabled := false
    hasTarget := true
    last_delay_text := "Ready..."
    last_time_text := ""
    last_notes := ""
    last_delay_ms := 0
    last_note_dir := none
    last_delay_valid := false }

/-- The conditioned snapshot `copy_recent` produces from `dmDemo`. -/
noncomputable def demoSnap : List ℝ :=
  apply_hann_window (apply_pre_emphasis
    (read_recent (fun _ => (1 : ℝ)) 1024 0 1024))

/-- A meter like `dmDemo` but with silent (all-zero) buffers of capacity
2048; every lag of its correlation search is skipped by the denominator
guard. -/
def dmZero : DelayMeter :=
  { capacity := 2048
    ref_buffer := fun _ => 0
    tgt_buffer := fun _ => 0
    ref_pos := 0
    tgt_pos := 0
    ref_count := 1024
    tgt_count := 1024
    sample_rate := 2048
    window_ms := 1000
    max_lag_ms := 500
    debug_enabled := false
    hasTarget := true
    last_delay_text := "Ready..."
    last_time_text := ""
    last_notes := ""
    last_delay_ms := 0
    last_note_dir := none
    last_delay_valid := false }

/-- The conditioned snapshot `copy_recent` produces from `dmZero`. -/
noncomputable def zeroSnap : List ℝ :=
  apply_hann_window (apply_pre_emphasis
    (read_recent (fun _ => (0 : ℝ)) 2048 0 1024))

/-- A freshly created meter (sample rate 2048, so capacity 10240) that has
received 1024 constant-1 frames on each stream. -/
def dmFed : DelayMeter :=
  capture_target
    (delay_meter_filter_audio (delay_meter_create 2048 1000 500 false true)
      (List.replicate 1024 1))
    (List.replicate 1024 1)

/-- An alternating ±1 signal of 1026 samples: period 2 and zero mean, so
its autocorrelation is exactly 1 at lags -2, 0 and +2 and exactly -1 at
lags -1 and +1. -/
noncomputable def altSig : List ℝ :=
  (List.range 1026).map (fun i => (-1) ^ i)

/-! ### Ring-buffer lemmas -/

theorem ring_write_capacity {α : Type} (r : RingBuf α) (xs : List α) :
    (ring_write r xs).capacity = r.capacity := by
  induction xs generalizing r with
  | nil => rfl
  | cons x xs ih => simpa [ring_write, List.foldl_cons] using ih (ringWrite1 r x)

theorem mod_shift_ne {c p t : ℕ} (hp : p < c) (ht : 0 < t) (htc : t < c) :
    (p + t) % c ≠ p := by
  intro h
  rcases Nat.lt_or_ge (p + t) c with hlt | hge
  · rw [Nat.mod_eq_of_lt hlt] at h; omega
  · have h2 : (p + t) % c = p + t - c := by
      rw [Nat.mod_eq_sub_mod hge, Nat.mod_eq_of_lt (by omega)]
    omega

theorem getD_append_left {α : Type} [Inhabited α] (h l : List α) (j : ℕ)
    (hj : j < h.length) : (h ++ l).getD j default = h.getD j default := by
  rw [List.getD_eq_getElem _ _ hj, List.getD_eq_getElem _ _ (by simp; omega)]
  exact (List.getElem_append_left hj).symm ▸ rfl

theorem getD_concat_self {α : Type} [Inhabited α] (h : List α) (x : α) :
    (h ++ [x]).getD h.length default = x := by
  rw [List.getD_eq_getElem _ _ (by simp)]
  simp

theorem ringInv_write1 {α : Type} [Inhabited α] {r : RingBuf α} {h : List α}
    (hinv : RingInv r h) (x : α) : RingInv (ringWrite1 r x) (h ++ [x]) := by
  obtain ⟨hcap, hcount, hpos, hbuf⟩ := hinv
  have hposlt : r.pos < r.capacity := hpos ▸ Nat.mod_lt _ hcap
  have hcle : r.count ≤ r.capacity := by omega
  refine ⟨hcap, ?_, ?_, ?_⟩
  · simp only [ringWrite1, List.length_append, List.length_singleton]
    by_cases hlt : r.count < r.capacity
    · rw [if_pos hlt]; omega
    · rw [if_neg hlt]; omega
  · simp only [ringWrite1, List.length_append, List.length_singleton]
    rw [hpos, Nat.mod_add_mod]
  · intro j hj
    by_cases hlt : r.count < r.capacity
    · -- the buffer is not yet full: count = h.length < capacity
      have hn : r.count = h.length := by omega
      have hnlt : h.length < r.capacity := by omega
      have hppos : r.pos = h.length := by rw [hpos, Nat.mod_eq_of_lt hnlt]
      have hcnt' : (ringWrite1 r x).count = r.count + 1 := by
        simp [ringWrite1, hlt]
      simp only [ringWrite1, hlt, if_true] at hj ⊢
      have hidx : (((r.pos + 1) % r.capacity + (r.capacity - (r.count + 1)) + j) %
          r.capacity) = j := by
        rw [Nat.add_assoc, Nat.mod_add_mod, ← Nat.add_assoc]
        have : r.pos + 1 + (r.capacity - (r.count + 1)) + j =
            r.capacity + j := by omega
        rw [this, Nat.add_mod_left, Nat.mod_eq_of_lt (by omega)]
      rw [hidx]
      by_cases hje : j = r.pos
      · rw [if_pos hje]
        have : h.length + 1 - (r.count + 1) + j = h.length := by
          omega
        rw [List.length_append, List.length_singleton, this, getD_concat_self]
      · rw [if_neg hje]
        have hjlt : j < r.count := by omega
        have hidx2 : ((r.pos + (r.capacity - r.count) + j) % r.capacity) = j := by
          have : r.pos + (r.capacity - r.count) + j = r.capacity + j := by omega
          rw [this, Nat.add_mod_left, Nat.mod_eq_of_lt (by omega)]
        have hold := hbuf j hjlt
        rw [hidx2] at hold
        have harg : h.length - r.count + j = j := by omega
        rw [harg] at hold
        rw [hold, List.length_append, List.length_singleton]
        have : h.length + 1 - (r.count + 1) + j = j := by omega
        rw [this, getD_append_left _ _ _ (by omega)]
    · -- the buffer is full: count = capacity ≤ h.length
      have hcfull : r.count = r.capacity := by omega
      have hcaple : r.capacity ≤ h.length := by omega
      simp only [ringWrite1, hlt, if_false] at hj ⊢
      have hidx : (((r.pos + 1) % r.capacity + (r.capacity - r.count) + j) %
          r.capacity) = (r.pos + (1 + j)) % r.capacity := by
        rw [Nat.add_assoc, Nat.mod_add_mod, hcfull, Nat.sub_self]
        congr 1
        omega
      rw [hidx]
      by_cases hje : j = r.count - 1
      · have hexp : r.pos + (1 + j) = r.pos + r.capacity := by omega
        rw [hexp, Nat.add_mod_right, Nat.mod_eq_of_lt hposlt, if_pos rfl]
        have : h.length + 1 - r.count + j = h.length := by omega
        rw [List.length_append, List.length_singleton, this, getD_concat_self]
      · have hne : (r.pos + (1 + j)) % r.capacity ≠ r.pos :=
          mod_shift_ne hposlt (by omega) (by omega)
        rw [if_neg hne]
        have hjlt : j + 1 < r.count := by omega
        have hold := hbuf (j + 1) hjlt
        rw [hcfull, Nat.sub_self] at hold
        have harg : r.pos + 0 + (j + 1) = r.pos + (1 + j) := by omega
        rw [harg] at hold
        rw [hold, List.length_append, List.length_singleton]
        have : h.length + 1 - r.count + j = h.length - r.count + (j + 1) := by
          omega
        rw [this, getD_append_left _ _ _ (by omega)]
        have harg2 : h.length - r.capacity + (j + 1) =
            h.length - r.count + (j + 1) := by omega
        rw [harg2]

theorem ringInv_write {α : Type} [Inhabited α] {r : RingBuf α} {h : List α}
    (hinv : RingInv r h) (xs : List α) : RingInv (ring_write r xs) (h ++ xs) := by
  induction xs generalizing r h with
  | nil => simpa [ring_write] using hinv
  | cons x xs ih =>
    have h2 := ih (ringInv_write1 hinv x)
    simpa [ring_write, List.foldl_cons, List.append_assoc] using h2

theorem ringInv_init (α : Type) [Inhabited α] (c : ℕ) (hc : 0 < c) :
    RingInv (initRing α c) [] := by
  refine ⟨hc, by simp [initRing], by simp [initRing], ?_⟩
  intro j hj
  simp [initRing] at hj

theorem read_recent_inv {α : Type} [Inhabited α] {r : RingBuf α} {h : List α}
    (hinv : RingInv r h) (frames : ℕ) (hf : frames ≤ r.count) :
    read_recent r.buf r.capacity r.pos frames = h.drop (h.length - frames) := by
  obtain ⟨hcap, hcount, hpos, hbuf⟩ := hinv
  have hcle : r.count ≤ r.capacity := by omega
  have hclen : r.count ≤ h.length := by omega
  apply List.ext_getElem
  · simp [read_recent]
    omega
  · intro i h1 h2
    simp only [read_recent, List.getElem_map, List.getElem_range]
    have hflen : frames ≤ h.length := by omega
    have hidx : ((r.pos + r.capacity - frames) % r.capacity + i) % r.capacity =
        (r.pos + (r.capacity - r.count) + (r.count - frames + i)) % r.capacity := by
      rw [Nat.mod_add_mod]
      congr 1
      omega
    have hilt : i < frames := by
      simpa [read_recent] using h1
    have hold := hbuf (r.count - frames + i) (by omega)
    rw [hidx, hold]
    have harg : h.length - r.count + (r.count - frames + i) =
        h.length - frames + i := by omega
    rw [harg, List.getD_eq_getElem _ _ (by omega)]
    simp only [List.getElem_drop]

theorem retrievable_inv {α : Type} [Inhabited α] {r : RingBuf α} {h : List α}
    (hinv : RingInv r h) : retrievable r = h.drop (h.length - r.count) :=
  read_recent_inv hinv r.count le_rfl

/-- Claim C2: for every ring buffer and every sequence of writes, after
writing `capacity + k` samples (k > 0) the count equals `capacity` and stays
there under further writes, exactly the last `capacity` written samples are
retrievable oldest-first starting from `(write_cursor - count) mod capacity`
(the reading convention of `retrievable`), and the count never exceeds the
capacity for any write history. -/
theorem claim_C2_ring_eviction (α : Type) [Inhabited α] (c k : ℕ)
    (hc : 0 < c) (hk : 0 < k) (h : List α) (hlen : h.length = c + k) :
    (ring_write (initRing α c) h).count = c ∧
    retrievable (ring_write (initRing α c) h) = h.drop k ∧
    (∀ more : List α,
      (ring_write (ring_write (initRing α c) h) more).count = c) ∧
    (∀ any : List α, (ring_write (initRing α c) any).count ≤ c) := by
  have hinv := ringInv_write (ringInv_init α c hc) h
  rw [List.nil_append] at hinv
  have hcap : (ring_write (initRing α c) h).capacity = c := by
    rw [ring_write_capacity]; rfl
  have hcnt : (ring_write (initRing α c) h).count = c := by
    rw [hinv.2.1, hcap, hlen]; omega
  refine ⟨hcnt, ?_, ?_, ?_⟩
  · rw [retrievable_inv hinv, hcnt, hlen]
    congr 1
    omega
  · intro more
    have hinv2 := ringInv_write (ringInv_init α c hc) (h ++ more)
    rw [List.nil_append] at hinv2
    have hsplit : ring_write (initRing α c) (h ++ more) =
        ring_write (ring_write (initRing α c) h) more := by
      simp [ring_write, List.foldl_append]
    rw [hsplit] at hinv2
    rw [hinv2.2.1, ring_write_capacity, ring_write_capacity]
    simp only [initRing, List.length_append, hlen]
    omega
  · intro any
    have hinv3 := ringInv_write (ringInv_init α c hc) any
    rw [List.nil_append] at hinv3
    rw [hinv3.2.1, ring_write_capacity]
    simp only [initRing]
    omega

/-- Witness for C2 at the concrete ring of capacity 2 receiving the three
samples 1, 2, 3: the count saturates at 2 and exactly the last two samples
are retrievable in order. -/
theorem claim_C2_witness :
    0 < 2 ∧ 0 < 1 ∧ ([1, 2, 3] : List ℚ).length = 2 + 1 ∧
    (ring_write (initRing ℚ 2) [1, 2, 3]).count = 2 ∧
    retrievable (ring_write (initRing ℚ 2) [1, 2, 3]) = [2, 3] ∧
    (∀ more : List ℚ,
      (ring_write (ring_write (initRing ℚ 2) [1, 2, 3]) more).count = 2) ∧
    (∀ any : List ℚ, (ring_write (initRing ℚ 2) any).count ≤ 2) := by
  have hmain :=
    claim_C2_ring_eviction ℚ 2 1 (by decide) (by decide) [1, 2, 3] (by decide)
  exact ⟨by decide, by decide, by decide, hmain.1, by simpa using hmain.2.1,
    hmain.2.2.1, hmain.2.2.2⟩

/-! ### Signal-conditioning lemmas -/

theorem preEmphGo_length {α : Type} [Field α] (prev : α) (l : List α) :
    (preEmphGo prev l).length = l.length := by
  induction l generalizing prev with
  | nil => rfl
  | cons x rest ih => simp [preEmphGo, ih]

theorem apply_pre_emphasis_length {α : Type} [Field α] (l : List α) :
    (apply_pre_emphasis l).length = l.length := by
  cases l with
  | nil => rfl
  | cons x rest =>
    unfold apply_pre_emphasis
    split
    · rfl
    · simp [preEmphGo_length]

theorem preEmphGo_getD {α : Type} [Field α] (l : List α) (prev : α) (i : ℕ)
    (hi : i < l.length) :
    (preEmphGo prev l).getD i 0 =
      l.getD i 0 - 19 / 20 * (if i = 0 then prev else l.getD (i - 1) 0) := by
  induction l generalizing prev i with
  | nil => simp at hi
  | cons x rest ih =>
    cases i with
    | zero => simp [preEmphGo]
    | succ n =>
      simp only [preEmphGo, List.getD_cons_succ]
      rw [ih x n (by simpa using hi)]
      cases n with
      | zero => simp
      | succ m => simp

/-- Claim C5: `apply_pre_emphasis` is a no-op on fewer than 2 samples,
keeps `y[0] = x[0]`, computes `y[i] = x[i] - 0.95 * x[i-1]` from the
original previous sample for every `i ≥ 1`, and maps `[1, 1, 1, 1]` to
`[1, 0.05, 0.05, 0.05]` (0.05 = 1/20 exactly). -/
theorem claim_C5_pre_emphasis :
    (∀ l : List ℚ, l.length < 2 → apply_pre_emphasis l = l) ∧
    (∀ l : List ℚ, (apply_pre_emphasis l).getD 0 0 = l.getD 0 0) ∧
    (∀ (l : List ℚ) (i : ℕ), 1 ≤ i → i < l.length →
      (apply_pre_emphasis l).getD i 0 =
        l.getD i 0 - 19 / 20 * l.getD (i - 1) 0) ∧
    apply_pre_emphasis ([1, 1, 1, 1] : List ℚ) = [1, 1 / 20, 1 / 20, 1 / 20] := by
  refine ⟨?_, ?_, ?_, by norm_num [apply_pre_emphasis, preEmphGo]⟩
  · intro l hl
    simp [apply_pre_emphasis, hl]
  · intro l
    cases l with
    | nil => rfl
    | cons x rest =>
      unfold apply_pre_emphasis
      split
      · rfl
      · simp
  · intro l i h1 h2
    cases l with
    | nil => simp at h2
    | cons x rest =>
      have hl : ¬ (x :: rest).length < 2 := by
        simp only [List.length_cons] at h2 ⊢
        omega
      simp only [apply_pre_emphasis, if_neg hl]
      cases i with
      | zero => omega
      | succ n =>
        simp only [List.getD_cons_succ]
        rw [preEmphGo_getD rest x n (by simpa using h2)]
        cases n with
        | zero => simp
        | succ m => simp

/-- Witness for C5: the general difference equation evaluated at index 2 of
the concrete input `[1, 1, 1, 1]`. -/
theorem claim_C5_witness :
    1 ≤ 2 ∧ 2 < ([1, 1, 1, 1] : List ℚ).length ∧
    (apply_pre_emphasis ([1, 1, 1, 1] : List ℚ)).getD 2 0 =
      ([1, 1, 1, 1] : List ℚ).getD 2 0 -
        19 / 20 * ([1, 1, 1, 1] : List ℚ).getD 1 0 :=
  ⟨by decide, by decide,
    claim_C5_pre_emphasis.2.2.1 [1, 1, 1, 1] 2 (by decide) (by decide)⟩

theorem apply_hann_window_length (l : List ℝ) :
    (apply_hann_window l).length = l.length := by
  unfold apply_hann_window
  split
  · rfl
  · simp

theorem apply_hann_window_getD (l : List ℝ) (i : ℕ) (hi : i < l.length)
    (hl : 2 ≤ l.length) :
    (apply_hann_window l).getD i 0 =
      l.getD i 0 *
        (1 / 2 * (1 - Real.cos (2 * Real.pi * i / ((l.length : ℝ) - 1)))) := by
  have hne : ¬ l.length ≤ 1 := by omega
  rw [apply_hann_window, if_neg hne]
  rw [List.getD_eq_getElem _ _ (by simpa using hi)]
  simp [List.getElem_map, List.getElem_range, List.getD_eq_getElem _ _ hi]

theorem apply_hann_window_head (l : List ℝ) (hl : 2 ≤ l.length) :
    (apply_hann_window l).getD 0 0 = 0 := by
  rw [apply_hann_window_getD l 0 (by omega) hl]
  norm_num

theorem hann_five :
    apply_hann_window (List.replicate 5 (1 : ℝ)) = [0, 1 / 2, 1, 1 / 2, 0] := by
  have c3 : Real.cos (Real.pi + Real.pi / 2) = 0 := by
    rw [Real.cos_add]
    simp
  have hne : ¬ (List.replicate 5 (1 : ℝ)).length ≤ 1 := by simp
  rw [apply_hann_window, if_neg hne]
  have hrange : List.range (List.replicate 5 (1 : ℝ)).length = [0, 1, 2, 3, 4] := by
    rw [List.length_replicate]
    decide
  rw [hrange]
  simp only [List.map_cons, List.map_nil, List.length_replicate, List.getD]
  norm_num
  rw [show 2 * Real.pi / 4 = Real.pi / 2 by ring,
      show 2 * Real.pi * 2 / 4 = Real.pi by ring,
      show 2 * Real.pi * 3 / 4 = Real.pi + Real.pi / 2 by ring]
  rw [Real.cos_pi_div_two, Real.cos_pi, c3]
  norm_num

/-- Claim C6: `apply_hann_window` multiplies sample `i` of `N` in place by
`0.5 * (1 - cos (2 π i / (N - 1)))`, is a no-op when `N ≤ 1`, and for
`N = 5` the weights at indices 0..4 are `[0, 1/2, 1, 1/2, 0]` exactly, so an
all-ones signal of length 5 is mapped to the window itself. -/
theorem claim_C6_hann :
    (∀ l : List ℝ, l.length ≤ 1 → apply_hann_window l = l) ∧
    (∀ (l : List ℝ) (i : ℕ), i < l.length → 2 ≤ l.length →
      (apply_hann_window l).getD i 0 =
        l.getD i 0 *
          (1 / 2 * (1 - Real.cos (2 * Real.pi * i / ((l.length : ℝ) - 1))))) ∧
    apply_hann_window (List.replicate 5 (1 : ℝ)) = [0, 1 / 2, 1, 1 / 2, 0] := by
  refine ⟨?_, ?_, hann_five⟩
  · intro l hl
    simp [apply_hann_window, hl]
  · intro l i hi hl
    exact apply_hann_window_getD l i hi hl

/-- Witness for C6: the general weight formula evaluated at index 2 of the
all-ones list of length 5. -/
theorem claim_C6_witness :
    2 < (List.replicate 5 (1 : ℝ)).length ∧
    2 ≤ (List.replicate 5 (1 : ℝ)).length ∧
    (apply_hann_window (List.replicate 5 (1 : ℝ))).getD 2 0 =
      (List.replicate 5 (1 : ℝ)).getD 2 0 *
        (1 / 2 * (1 - Real.cos (2 * Real.pi * ((2 : ℕ) : ℝ) /
          (((List.replicate 5 (1 : ℝ)).length : ℝ) - 1)))) :=
  ⟨by simp, by simp,
    claim_C6_hann.2.1 (List.replicate 5 1) 2 (by simp) (by simp)⟩

/-! ### Unit conversion and configuration -/

/-- Claim C7: `ms_to_samples` is exactly `(ms * rate + 500) / 1000` with
truncating division, which rounds `ms * rate / 1000` to the nearest integer
with halves rounded up (the result `q` satisfies
`ms * rate / 1000 - 1/2 < q ≤ ms * rate / 1000 + 1/2` over `ℚ`), and the
`max_lag_samples` used by `estimate_delay` is clamped to at most
`frames / 2` regardless of the configured maximum lag in milliseconds. -/
theorem claim_C7_ms_to_samples :
    (∀ ms rate : ℕ, ms_to_samples ms rate = (ms * rate + 500) / 1000) ∧
    (∀ ms rate : ℕ,
      ((ms * rate : ℕ) : ℚ) / 1000 - 1 / 2 < (ms_to_samples ms rate : ℚ) ∧
      (ms_to_samples ms rate : ℚ) ≤ ((ms * rate : ℕ) : ℚ) / 1000 + 1 / 2) ∧
    (∀ (dm : DelayMeter) (frames : ℕ), search_max_lag dm frames ≤ frames / 2) := by
  refine ⟨fun ms rate => rfl, ?_, ?_⟩
  · intro ms rate
    simp only [ms_to_samples]
    set a := ms * rate with ha
    have hdm : 1000 * ((a + 500) / 1000) + (a + 500) % 1000 = a + 500 :=
      Nat.div_add_mod _ 1000
    have hmod : (a + 500) % 1000 < 1000 := Nat.mod_lt _ (by norm_num)
    have h2 : (1000 : ℚ) * (((a + 500) / 1000 : ℕ) : ℚ) +
        (((a + 500) % 1000 : ℕ) : ℚ) = (a : ℚ) + 500 := by
      exact_mod_cast hdm
    have h3 : (0 : ℚ) ≤ (((a + 500) % 1000 : ℕ) : ℚ) := Nat.cast_nonneg _
    have h4 : (((a + 500) % 1000 : ℕ) : ℚ) < 1000 := by exact_mod_cast hmod
    constructor
    · linarith
    · linarith
  · intro dm frames
    simp only [search_max_lag]
    split
    · exact le_rfl
    · omega

/-- Claim C8 counterexample: an update call whose settings carry
`window_ms = 0` leaves the stored `window_ms` at 0, outside the
claimed [200, 3000] bound — `delay_meter_update` performs no clamping. -/
theorem claim_C8_counterexample :
    ¬ MIN_WINDOW_MS ≤
        (delay_meter_update (delay_meter_create 48000 1000 500 false false)
          ⟨0, 0, false⟩).window_ms := by
  simp [delay_meter_update, MIN_WINDOW_MS]

/-- Claim C8 (amended): `delay_meter_update` stores the settings values
verbatim; the [200, 3000] ms and [50, 1500] ms ranges are the limits of the
UI sliders built by `delay_meter_properties`, not clamps applied on the
update path, so the stored `window_ms` and `max_lag_ms` lie within those
bounds exactly when the incoming settings values do. -/
theorem claim_C8_amended (dm : DelayMeter) (s : Settings) :
    (delay_meter_update dm s).window_ms = s.window_ms ∧
    (delay_meter_update dm s).max_lag_ms = s.max_lag_ms ∧
    (delay_meter_update dm s).debug_enabled = s.debug_enabled ∧
    (MIN_WINDOW_MS ≤ s.window_ms → s.window_ms ≤ MAX_WINDOW_MS →
      MIN_LAG_MS ≤ s.max_lag_ms → s.max_lag_ms ≤ MAX_LAG_MS →
      MIN_WINDOW_MS ≤ (delay_meter_update dm s).window_ms ∧
      (delay_meter_update dm s).window_ms ≤ MAX_WINDOW_MS ∧
      MIN_LAG_MS ≤ (delay_meter_update dm s).max_lag_ms ∧
      (delay_meter_update dm s).max_lag_ms ≤ MAX_LAG_MS) :=
  ⟨rfl, rfl, rfl, fun h1 h2 h3 h4 => ⟨h1, h2, h3, h4⟩⟩

/-- Witness for the amended C8 at an in-range update call. -/
theorem claim_C8_witness :
    MIN_WINDOW_MS ≤ 1000 ∧ 1000 ≤ MAX_WINDOW_MS ∧
    MIN_LAG_MS ≤ 500 ∧ 500 ≤ MAX_LAG_MS ∧
    (MIN_WINDOW_MS ≤
        (delay_meter_update (delay_meter_create 48000 1000 500 false false)
          ⟨1000, 500, true⟩).window_ms ∧
      (delay_meter_update (delay_meter_create 48000 1000 500 false false)
          ⟨1000, 500, true⟩).window_ms ≤ MAX_WINDOW_MS ∧
      MIN_LAG_MS ≤
        (delay_meter_update (delay_meter_create 48000 1000 500 false false)
          ⟨1000, 500, true⟩).max_lag_ms ∧
      (delay_meter_update (delay_meter_create 48000 1000 500 false false)
          ⟨1000, 500, true⟩).max_lag_ms ≤ MAX_LAG_MS) :=
  ⟨by decide, by decide, by decide, by decide,
    (claim_C8_amended (delay_meter_create 48000 1000 500 false false)
      ⟨1000, 500, true⟩).2.2.2 (by decide) (by decide) (by decide) (by decide)⟩

/-! ### Measurement orchestration -/

/-- Claim C9: every failed `measure` attempt — no target bound, fewer than
1024 samples in a buffer, or low confidence — leaves the ring buffers
(storage, cursors, counts) and the configuration (window, max lag, sample
rate, debug flag) unchanged and stores an invalid result with a non-empty
human-readable reason string; and the no-target check comes first: with no
target bound the result is the no-target one whatever the buffers hold, so
no snapshot is consulted. -/
theorem claim_C9_failure_preserves_state (dm : DelayMeter) (now : String) :
    (dm.hasTarget = false →
      perform_measure dm now =
        (markInvalid (set_result dm "No target source"
          "Select a delayed source to compare against." now), false)) ∧
    ((perform_measure dm now).2 = false →
      (perform_measure dm now).1.capacity = dm.capacity ∧
      (perform_measure dm now).1.ref_buffer = dm.ref_buffer ∧
      (perform_measure dm now).1.tgt_buffer = dm.tgt_buffer ∧
      (perform_measure dm now).1.ref_pos = dm.ref_pos ∧
      (perform_measure dm now).1.tgt_pos = dm.tgt_pos ∧
      (perform_measure dm now).1.ref_count = dm.ref_count ∧
      (perform_measure dm now).1.tgt_count = dm.tgt_count ∧
      (perform_measure dm now).1.sample_rate = dm.sample_rate ∧
      (perform_measure dm now).1.window_ms = dm.window_ms ∧
      (perform_measure dm now).1.max_lag_ms = dm.max_lag_ms ∧
      (perform_measure dm now).1.debug_enabled = dm.debug_enabled ∧
      (perform_measure dm now).1.last_delay_valid = false ∧
      (perform_measure dm now).1.last_delay_text ≠ "" ∧
      ((perform_measure dm now).1.last_delay_text = "No target source" ∨
       (perform_measure dm now).1.last_delay_text = "Buffers too small" ∨
       (perform_measure dm now).1.last_delay_text =
         "Insufficient correlation - check audio levels and similarity")) := by
  constructor
  · intro h
    rw [perform_measure, if_pos h]
  · intro hok
    rw [perform_measure] at hok ⊢
    by_cases h1 : dm.hasTarget = false
    · rw [if_pos h1] at hok ⊢
      refine ⟨rfl, rfl, rfl, rfl, rfl, rfl, rfl, rfl, rfl, rfl, rfl, rfl,
        ?_, Or.inl rfl⟩
      show ("No target source" : String) ≠ ""
      decide
    · rw [if_neg h1] at hok ⊢
      by_cases h2 : ¬ (1024 ≤ dm.ref_count ∧ 1024 ≤ dm.tgt_count)
      · rw [if_pos h2] at hok ⊢
        refine ⟨rfl, rfl, rfl, rfl, rfl, rfl, rfl, rfl, rfl, rfl, rfl, rfl,
          ?_, Or.inr (Or.inl rfl)⟩
        show ("Buffers too small" : String) ≠ ""
        decide
      · rw [if_neg h2] at hok ⊢
        cases hcd : estimate_delay dm with
        | none =>
          refine ⟨rfl, rfl, rfl, rfl, rfl, rfl, rfl, rfl, rfl, rfl, rfl, rfl,
            ?_, Or.inr (Or.inr rfl)⟩
          show ("Insufficient correlation - check audio levels and similarity" :
            String) ≠ ""
          decide
        | some p =>
          obtain ⟨d, c⟩ := p
          rw [hcd] at hok
          exact Bool.noConfusion hok

/-- Witness for C9 at a freshly created meter with no target bound: the
measurement fails with the no-target result and the state is the old state
with only the result fields rewritten. -/
theorem claim_C9_witness :
    (delay_meter_create 48000 1000 500 false false).hasTarget = false ∧
    perform_measure (delay_meter_create 48000 1000 500 false false) "" =
      (markInvalid (set_result (delay_meter_create 48000 1000 500 false false)
        "No target source" "Select a delayed source to compare against." ""),
       false) :=
  ⟨rfl,
    (claim_C9_failure_preserves_state
      (delay_meter_create 48000 1000 500 false false) "").1 rfl⟩

/-! ### Snapshot lemmas -/

theorem copy_recent_spec (dm : DelayMeter) (h1 h2 : List ℝ)
    (hr : RingInv (refRing dm) h1) (ht : RingInv (tgtRing dm) h2) :
    (min (min dm.ref_count dm.tgt_count)
        (ms_to_samples dm.window_ms dm.sample_rate) < 1024 →
      copy_recent dm = none) ∧
    (1024 ≤ min (min dm.ref_count dm.tgt_count)
        (ms_to_samples dm.window_ms dm.sample_rate) →
      copy_recent dm =
        some
          (apply_hann_window (apply_pre_emphasis
            (h1.drop (h1.length - min (min dm.ref_count dm.tgt_count)
              (ms_to_samples dm.window_ms dm.sample_rate)))),
           apply_hann_window (apply_pre_emphasis
            (h2.drop (h2.length - min (min dm.ref_count dm.tgt_count)
              (ms_to_samples dm.window_ms dm.sample_rate)))),
           min (min dm.ref_count dm.tgt_count)
             (ms_to_samples dm.window_ms dm.sample_rate))) := by
  constructor
  · intro hlt
    simp only [copy_recent]
    rw [if_pos hlt]
  · intro hge
    have hfr : ¬ min (min dm.ref_count dm.tgt_count)
        (ms_to_samples dm.window_ms dm.sample_rate) < 1024 := by omega
    have hle_r : min (min dm.ref_count dm.tgt_count)
        (ms_to_samples dm.window_ms dm.sample_rate) ≤ (refRing dm).count := by
      simp only [refRing]
      omega
    have hle_t : min (min dm.ref_count dm.tgt_count)
        (ms_to_samples dm.window_ms dm.sample_rate) ≤ (tgtRing dm).count := by
      simp only [tgtRing]
      omega
    have e1 := read_recent_inv hr _ hle_r
    have e2 := read_recent_inv ht _ hle_t
    simp only [refRing] at e1
    simp only [tgtRing] at e2
    simp only [copy_recent]
    rw [if_neg hfr, e1, e2]

theorem copy_recent_bounds {dm : DelayMeter} {r t : List ℝ} {frames : ℕ}
    (h : copy_recent dm = some (r, t, frames)) :
    1024 ≤ frames ∧ frames ≤ dm.ref_count ∧ frames ≤ dm.tgt_count ∧
    frames = min (min dm.ref_count dm.tgt_count)
      (ms_to_samples dm.window_ms dm.sample_rate) ∧
    r = apply_hann_window (apply_pre_emphasis
      (read_recent dm.ref_buffer dm.capacity dm.ref_pos frames)) ∧
    t = apply_hann_window (apply_pre_emphasis
      (read_recent dm.tgt_buffer dm.capacity dm.tgt_pos frames)) := by
  simp only [copy_recent] at h
  by_cases hc : min (min dm.ref_count dm.tgt_count)
      (ms_to_samples dm.window_ms dm.sample_rate) < 1024
  · rw [if_pos hc] at h
    exact absurd h (by simp)
  · rw [if_neg hc] at h
    rw [Option.some.injEq, Prod.mk.injEq, Prod.mk.injEq] at h
    obtain ⟨hrr, htt, hff⟩ := h
    subst hff
    subst hrr
    subst htt
    refine ⟨by omega, by omega, by omega, rfl, rfl, rfl⟩

theorem refRing_capture_target (dm : DelayMeter) (xs : List ℝ) :
    refRing (capture_target dm xs) = refRing dm := rfl

theorem tgtRing_capture_target (dm : DelayMeter) (xs : List ℝ) :
    tgtRing (capture_target dm xs) = ring_write (tgtRing dm) xs := by
  have hc := ring_write_capacity (tgtRing dm) xs
  cases hrw : ring_write (tgtRing dm) xs with
  | mk c b p k =>
    rw [hrw] at hc
    simp only [tgtRing] at hc
    simp only [capture_target]
    rw [hrw]
    simp [tgtRing, hc]

theorem tgtRing_filter_audio (dm : DelayMeter) (xs : List ℝ) :
    tgtRing (delay_meter_filter_audio dm xs) = tgtRing dm := by
  simp only [delay_meter_filter_audio]
  split
  · rfl
  · rfl

theorem refRing_filter_audio (dm : DelayMeter) (xs : List ℝ)
    (h : dm.hasTarget = true) :
    refRing (delay_meter_filter_audio dm xs) = ring_write (refRing dm) xs := by
  have hc := ring_write_capacity (refRing dm) xs
  cases hrw : ring_write (refRing dm) xs with
  | mk c b p k =>
    rw [hrw] at hc
    simp only [refRing] at hc
    simp only [delay_meter_filter_audio, h, if_true]
    rw [hrw]
    simp [refRing, hc]

theorem refRing_create (rate w m : ℕ) (d t : Bool) :
    refRing (delay_meter_create rate w m d t) =
      initRing ℝ (ms_to_samples (BUFFER_SECONDS * 1000) rate) := rfl

theorem tgtRing_create (rate w m : ℕ) (d t : Bool) :
    tgtRing (delay_meter_create rate w m d t) =
      initRing ℝ (ms_to_samples (BUFFER_SECONDS * 1000) rate) := rfl

theorem ms_to_samples_pos (ms rate : ℕ) (h : 500 ≤ ms * rate) :
    0 < ms_to_samples ms rate :=
  Nat.div_pos (by omega) (by norm_num)

theorem dmFed_ref_inv : RingInv (refRing dmFed) (List.replicate 1024 (1 : ℝ)) := by
  rw [dmFed, refRing_capture_target, refRing_filter_audio _ _ rfl, refRing_create]
  have h0 := ringInv_init ℝ (ms_to_samples (BUFFER_SECONDS * 1000) 2048)
    (ms_to_samples_pos _ _ (by norm_num [BUFFER_SECONDS]))
  have h1 := ringInv_write h0 (List.replicate 1024 (1 : ℝ))
  rwa [List.nil_append] at h1

theorem dmFed_tgt_inv : RingInv (tgtRing dmFed) (List.replicate 1024 (1 : ℝ)) := by
  rw [dmFed, tgtRing_capture_target, tgtRing_filter_audio, tgtRing_create]
  have h0 := ringInv_init ℝ (ms_to_samples (BUFFER_SECONDS * 1000) 2048)
    (ms_to_samples_pos _ _ (by norm_num [BUFFER_SECONDS]))
  have h1 := ringInv_write h0 (List.replicate 1024 (1 : ℝ))
  rwa [List.nil_append] at h1

theorem dmFed_ref_count : dmFed.ref_count = 1024 := by
  have h := dmFed_ref_inv.2.1
  simp only [refRing] at h
  rw [List.length_replicate] at h
  have hcap : dmFed.capacity = 10240 := rfl
  rw [hcap] at h
  omega

theorem dmFed_tgt_count : dmFed.tgt_count = 1024 := by
  have h := dmFed_tgt_inv.2.1
  simp only [tgtRing] at h
  rw [List.length_replicate] at h
  have hcap : dmFed.capacity = 10240 := rfl
  rw [hcap] at h
  omega

theorem dmFed_frames :
    min (min dmFed.ref_count dmFed.tgt_count)
      (ms_to_samples dmFed.window_ms dmFed.sample_rate) = 1024 := by
  have hwin : dmFed.window_ms = 1000 := rfl
  have hrate : dmFed.sample_rate = 2048 := rfl
  have hms : ms_to_samples 1000 2048 = 2048 := rfl
  rw [dmFed_ref_count, dmFed_tgt_count, hwin, hrate, hms]
  omega

theorem copy_recent_dmFed :
    copy_recent dmFed =
      some (apply_hann_window (apply_pre_emphasis (List.replicate 1024 (1 : ℝ))),
            apply_hann_window (apply_pre_emphasis (List.replicate 1024 (1 : ℝ))),
            1024) := by
  have hs := (copy_recent_spec dmFed _ _ dmFed_ref_inv dmFed_tgt_inv).2
    (by rw [dmFed_frames])
  rw [dmFed_frames, List.length_replicate] at hs
  rw [show (1024 - 1024 : ℕ) = 0 from rfl, List.drop_zero] at hs
  exact hs

/-- Claim C3 counterexample: feed 1024 constant-1 samples to both buffers of
a fresh meter.  `copy_recent` succeeds with `frames_actual = 1024`, but the
returned sequences are not the raw last-1024 written values: lines 148-151
apply pre-emphasis and the Hann window to the copies before returning, so
the returned head sample is 0 (the Hann weight at index 0) while every
written sample was 1. -/
theorem claim_C3_counterexample :
    (copy_recent dmFed).isSome = true ∧
    copy_recent dmFed ≠
      some (List.replicate 1024 (1 : ℝ), List.replicate 1024 (1 : ℝ), 1024) := by
  constructor
  · rw [copy_recent_dmFed]
    rfl
  · rw [copy_recent_dmFed]
    intro heq
    simp only [Option.some.injEq, Prod.mk.injEq] at heq
    obtain ⟨h1eq, -⟩ := heq
    have hlen : 2 ≤ (apply_pre_emphasis (List.replicate 1024 (1 : ℝ))).length := by
      rw [apply_pre_emphasis_length, List.length_replicate]
      norm_num
    have h0 := apply_hann_window_head _ hlen
    rw [h1eq] at h0
    have hone : (List.replicate 1024 (1 : ℝ)).getD 0 0 = 1 := by
      rw [List.getD_eq_getElem _ _
        (by rw [List.length_replicate]; norm_num)]
      rw [List.getElem_replicate]
    rw [hone] at h0
    norm_num at h0

/-- Claim C3 (amended): under the ring-buffer invariant, the snapshot's
frame count is `min (frames_requested, ref.count, tgt.count)` where
`frames_requested = ms_to_samples window_ms sample_rate`; `copy_recent`
fails exactly when that count is below 1024; and on success it returns two
fresh sequences obtained by applying pre-emphasis and then the Hann window
(the in-place conditioning of lines 148-151) to exactly the last
`frames_actual` written samples of each buffer in chronological order,
regardless of circular wraparound.  (The original claim said the returned
sequences equal the raw last `frames_actual` written values; they are the
conditioned copies of those values.) -/
theorem claim_C3_amended (dm : DelayMeter) (h1 h2 : List ℝ)
    (hr : RingInv (refRing dm) h1) (ht : RingInv (tgtRing dm) h2) :
    min (min dm.ref_count dm.tgt_count)
        (ms_to_samples dm.window_ms dm.sample_rate) =
      min (min (ms_to_samples dm.window_ms dm.sample_rate) dm.ref_count)
        dm.tgt_count ∧
    (min (min dm.ref_count dm.tgt_count)
        (ms_to_samples dm.window_ms dm.sample_rate) < 1024 →
      copy_recent dm = none) ∧
    (1024 ≤ min (min dm.ref_count dm.tgt_count)
        (ms_to_samples dm.window_ms dm.sample_rate) →
      copy_recent dm =
        some
          (apply_hann_window (apply_pre_emphasis
            (h1.drop (h1.length - min (min dm.ref_count dm.tgt_count)
              (ms_to_samples dm.window_ms dm.sample_rate)))),
           apply_hann_window (apply_pre_emphasis
            (h2.drop (h2.length - min (min dm.ref_count dm.tgt_count)
              (ms_to_samples dm.window_ms dm.sample_rate)))),
           min (min dm.ref_count dm.tgt_count)
             (ms_to_samples dm.window_ms dm.sample_rate))) :=
  ⟨by omega, (copy_recent_spec dm h1 h2 hr ht).1,
    (copy_recent_spec dm h1 h2 hr ht).2⟩

/-- Witness for the amended C3 at the concrete fed meter `dmFed`. -/
theorem claim_C3_witness :
    RingInv (refRing dmFed) (List.replicate 1024 (1 : ℝ)) ∧
    RingInv (tgtRing dmFed) (List.replicate 1024 (1 : ℝ)) ∧
    1024 ≤ min (min dmFed.ref_count dmFed.tgt_count)
      (ms_to_samples dmFed.window_ms dmFed.sample_rate) ∧
    copy_recent dmFed =
      some
        (apply_hann_window (apply_pre_emphasis
          ((List.replicate 1024 (1 : ℝ)).drop
            ((List.replicate 1024 (1 : ℝ)).length -
              min (min dmFed.ref_count dmFed.tgt_count)
                (ms_to_samples dmFed.window_ms dmFed.sample_rate)))),
         apply_hann_window (apply_pre_emphasis
          ((List.replicate 1024 (1 : ℝ)).drop
            ((List.replicate 1024 (1 : ℝ)).length -
              min (min dmFed.ref_count dmFed.tgt_count)
                (ms_to_samples dmFed.window_ms dmFed.sample_rate)))),
         min (min dmFed.ref_count dmFed.tgt_count)
           (ms_to_samples dmFed.window_ms dmFed.sample_rate)) := by
  have hge : 1024 ≤ min (min dmFed.ref_count dmFed.tgt_count)
      (ms_to_samples dmFed.window_ms dmFed.sample_rate) := by
    rw [dmFed_frames]
  exact ⟨dmFed_ref_inv, dmFed_tgt_inv, hge,
    (claim_C3_amended dmFed _ _ dmFed_ref_inv dmFed_tgt_inv).2.2 hge⟩

/-! ### Correlation-search lemmas -/

theorem lag_candidates_mem (m : ℕ) :
    ∀ lag : ℤ, lag ∈ lag_candidates m ↔ -(m : ℤ) ≤ lag ∧ lag ≤ (m : ℤ) := by
  intro lag
  rw [lag_candidates, List.mem_map]
  constructor
  · rintro ⟨k, hk, rfl⟩
    have hk2 : k < 2 * m + 1 := List.mem_range.mp hk
    omega
  · rintro ⟨h1, h2⟩
    exact ⟨(lag + m).toNat, List.mem_range.mpr (by omega), by omega⟩

theorem lag_candidates_sorted (m : ℕ) :
    (lag_candidates m).Pairwise (· < ·) := by
  rw [lag_candidates, List.pairwise_map]
  exact List.Pairwise.imp (fun hab => by omega) (List.pairwise_lt_range (2 * m + 1))

theorem lag_step_cases (corrf : ℤ → Option ℝ) (st : ℝ × ℤ × ℕ) (x : ℤ) :
    (lag_step corrf st x).1 = st.1 ∧ (lag_step corrf st x).2.1 = st.2.1 ∨
    corrf x = some (lag_step corrf st x).1 ∧ st.1 < (lag_step corrf st x).1 ∧
      (lag_step corrf st x).2.1 = x := by
  cases hcx : corrf x with
  | none => simp [lag_step, hcx]
  | some c =>
    by_cases h : st.1 < c
    · simp [lag_step, hcx, h]
    · simp [lag_step, hcx, h]

theorem lag_step_le (corrf : ℤ → Option ℝ) (st : ℝ × ℤ × ℕ) (x : ℤ) :
    st.1 ≤ (lag_step corrf st x).1 := by
  rcases lag_step_cases corrf st x with ⟨h1, -⟩ | ⟨-, h2, -⟩
  · exact h1.ge
  · exact h2.le

theorem lag_step_ub (corrf : ℤ → Option ℝ) (st : ℝ × ℤ × ℕ) (x : ℤ) (c : ℝ)
    (hc : corrf x = some c) : c ≤ (lag_step corrf st x).1 := by
  by_cases h : st.1 < c
  · simp [lag_step, hc, h]
  · simp only [lag_step, hc]
    rw [if_neg h]
    exact le_of_not_lt h

theorem lag_scan_go (corrf : ℤ → Option ℝ) (L : List ℤ) :
    ∀ st : ℝ × ℤ × ℕ, L.Pairwise (· < ·) →
      st.1 ≤ (L.foldl (lag_step corrf) st).1 ∧
      (((L.foldl (lag_step corrf) st).1 = st.1 ∧
        (L.foldl (lag_step corrf) st).2.1 = st.2.1) ∨
       ((L.foldl (lag_step corrf) st).2.1 ∈ L ∧
        corrf (L.foldl (lag_step corrf) st).2.1 =
          some (L.foldl (lag_step corrf) st).1 ∧
        st.1 < (L.foldl (lag_step corrf) st).1)) ∧
      (∀ l ∈ L, ∀ c, corrf l = some c →
        c ≤ (L.foldl (lag_step corrf) st).1) ∧
      (∀ l ∈ L, l < (L.foldl (lag_step corrf) st).2.1 → ∀ c,
        corrf l = some c →
        c < (L.foldl (lag_step corrf) st).1 ∨ c ≤ st.1) := by
  induction L with
  | nil =>
    intro st _
    exact ⟨le_rfl, Or.inl ⟨rfl, rfl⟩, by simp, by simp⟩
  | cons x xs ih =>
    intro st hp
    obtain ⟨hx, hxs⟩ := List.pairwise_cons.mp hp
    obtain ⟨ih1, ih2, ih3, ih4⟩ := ih (lag_step corrf st x) hxs
    simp only [List.foldl_cons]
    have hstep := lag_step_cases corrf st x
    have hle := lag_step_le corrf st x
    refine ⟨le_trans hle ih1, ?_, ?_, ?_⟩
    · rcases ih2 with ⟨hk1, hk2⟩ | ⟨hm1, hm2, hm3⟩
      · rcases hstep with ⟨hs1, hs2⟩ | ⟨hs1, hs2, hs3⟩
        · exact Or.inl ⟨hk1.trans hs1, hk2.trans hs2⟩
        · refine Or.inr ⟨?_, ?_, ?_⟩
          · rw [hk2, hs3]
            exact List.mem_cons_self x xs
          · rw [hk2, hs3, hk1]
            exact hs1
          · rw [hk1]
            exact hs2
      · exact Or.inr ⟨List.mem_cons_of_mem x hm1, hm2, lt_of_le_of_lt hle hm3⟩
    · intro l hl c hc
      rcases List.mem_cons.mp hl with rfl | hl'
      · exact le_trans (lag_step_ub corrf st l c hc) ih1
      · exact ih3 l hl' c hc
    · intro l hl hlt c hc
      rcases List.mem_cons.mp hl with rfl | hl'
      · have hub := lag_step_ub corrf st l c hc
        rcases hstep with ⟨hs1, -⟩ | ⟨-, hs2, hs3⟩
        · exact Or.inr (hub.trans hs1.le)
        · rcases ih2 with ⟨-, hk2⟩ | ⟨-, -, hm3⟩
          · rw [hk2, hs3] at hlt
            exact absurd hlt (lt_irrefl l)
          · exact Or.inl (lt_of_le_of_lt hub hm3)
      · have hxl : x < l := hx l hl'
        rcases ih4 l hl' hlt c hc with h1 | h2
        · exact Or.inl h1
        · rcases hstep with ⟨hs1, -⟩ | ⟨-, hs2, hs3⟩
          · exact Or.inr (h2.trans hs1.le)
          · rcases ih2 with ⟨-, hk2⟩ | ⟨-, -, hm3⟩
            · rw [hk2, hs3] at hlt
              omega
            · exact Or.inl (lt_of_le_of_lt h2 hm3)

theorem lag_scan_all_none (corrf : ℤ → Option ℝ) (L : List ℤ)
    (h : ∀ l ∈ L, corrf l = none) : lag_scan corrf L = (-1, 0, 0) := by
  rw [lag_scan]
  induction L with
  | nil => rfl
  | cons x xs ih =>
    rw [List.foldl_cons]
    have hx : corrf x = none := h x (List.mem_cons_self x xs)
    have hstep : lag_step corrf (-1, 0, 0) x = (-1, 0, 0) := by
      simp [lag_step, hx]
    rw [hstep]
    exact ih (fun l hl => h l (List.mem_cons_of_mem x hl))

theorem find_best_lag_spec (ref tgt : List ℝ) (frames max_lag : ℕ)
    (hx : ∃ lag ∈ lag_candidates max_lag, ∃ c,
      corr_at ref tgt frames (signal_mean ref frames)
        (signal_mean tgt frames) lag = some c ∧ -1 < c) :
    (find_best_lag ref tgt frames max_lag).2.1 ∈ lag_candidates max_lag ∧
    corr_at ref tgt frames (signal_mean ref frames) (signal_mean tgt frames)
      (find_best_lag ref tgt frames max_lag).2.1 =
        some (find_best_lag ref tgt frames max_lag).1 ∧
    (∀ lag ∈ lag_candidates max_lag, ∀ c,
      corr_at ref tgt frames (signal_mean ref frames)
        (signal_mean tgt frames) lag = some c →
      c ≤ (find_best_lag ref tgt frames max_lag).1) ∧
    (∀ lag ∈ lag_candidates max_lag,
      lag < (find_best_lag ref tgt frames max_lag).2.1 → ∀ c,
      corr_at ref tgt frames (signal_mean ref frames)
        (signal_mean tgt frames) lag = some c →
      c < (find_best_lag ref tgt frames max_lag).1) := by
  obtain ⟨l0, hl0, c0, hc0, hc0lt⟩ := hx
  have h := lag_scan_go
    (corr_at ref tgt frames (signal_mean ref frames) (signal_mean tgt frames))
    (lag_candidates max_lag) (-1, 0, 0) (lag_candidates_sorted max_lag)
  obtain ⟨h1, h2, h3, h4⟩ := h
  have hbest : (-1 : ℝ) <
      ((lag_candidates max_lag).foldl (lag_step
        (corr_at ref tgt frames (signal_mean ref frames)
          (signal_mean tgt frames))) (-1, 0, 0)).1 :=
    lt_of_lt_of_le hc0lt (h3 l0 hl0 c0 hc0)
  rcases h2 with ⟨hk1, -⟩ | ⟨hm1, hm2, -⟩
  · rw [hk1] at hbest
    exact absurd hbest (lt_irrefl _)
  · refine ⟨hm1, hm2, h3, ?_⟩
    intro lag hlag hlt c hc
    rcases h4 lag hlag hlt c hc with h | h
    · exact h
    · exact lt_of_le_of_lt h hbest

/-- Claim C4 (amended): `find_best_lag` scans the lags in the order
`-max_lag, …, -1, 0, 1, …, +max_lag` and keeps the maximum correlation under
a strict `>` comparison, so when several lags achieve the same maximal
correlation it returns the first one encountered, which is the least (most
negative) lag achieving the maximum — not, in general, the
smallest-magnitude one.  Concretely: the candidate list is exactly
`[-max_lag, max_lag]` in increasing order, the returned `best_lag` is a
candidate whose correlation equals `best_corr`, every computed correlation
is at most `best_corr`, and every candidate before `best_lag` in scan order
(that is, every smaller lag) has a strictly smaller correlation. -/
theorem claim_C4_amended (ref tgt : List ℝ) (frames max_lag : ℕ) (bc : ℝ)
    (bl : ℤ) (n : ℕ)
    (hres : find_best_lag ref tgt frames max_lag = (bc, bl, n))
    (hx : ∃ lag ∈ lag_candidates max_lag, ∃ c,
      corr_at ref tgt frames (signal_mean ref frames)
        (signal_mean tgt frames) lag = some c ∧ -1 < c) :
    (∀ lag : ℤ, lag ∈ lag_candidates max_lag ↔
      -(max_lag : ℤ) ≤ lag ∧ lag ≤ (max_lag : ℤ)) ∧
    bl ∈ lag_candidates max_lag ∧
    corr_at ref tgt frames (signal_mean ref frames) (signal_mean tgt frames)
      bl = some bc ∧
    (∀ lag ∈ lag_candidates max_lag, ∀ c,
      corr_at ref tgt frames (signal_mean ref frames)
        (signal_mean tgt frames) lag = some c → c ≤ bc) ∧
    (∀ lag ∈ lag_candidates max_lag, lag < bl → ∀ c,
      corr_at ref tgt frames (signal_mean ref frames)
        (signal_mean tgt frames) lag = some c → c < bc) := by
  have h := find_best_lag_spec ref tgt frames max_lag hx
  rw [hres] at h
  exact ⟨lag_candidates_mem max_lag, h.1, h.2.1, h.2.2.1, h.2.2.2⟩

/-! ### The alternating test signal -/

theorem altSig_length : altSig.length = 1026 := by
  rw [altSig, List.length_map, List.length_range]

theorem altSig_getD (i : ℕ) (hi : i < 1026) :
    altSig.getD i 0 = (-1 : ℝ) ^ i := by
  rw [altSig]
  rw [List.getD_eq_getElem _ _
    (by rw [List.length_map, List.length_range]; omega)]
  simp

theorem altSig_mean : signal_mean altSig 1026 = 0 := by
  rw [signal_mean]
  have hsum : ∑ i ∈ Finset.range 1026, altSig.getD i 0 =
      ∑ i ∈ Finset.range 1026, (-1 : ℝ) ^ i := by
    refine Finset.sum_congr rfl ?_
    intro i hi
    exact altSig_getD i (Finset.mem_range.mp hi)
  rw [hsum, neg_one_geom_sum, if_pos (Nat.even_iff.mpr (by norm_num))]
  norm_num

theorem neg_one_pow_double (k : ℕ) : ((-1 : ℝ)) ^ (k + k) = 1 := by
  rw [← two_mul, pow_mul]
  norm_num

theorem altSig_prod_sum (sa sb ov : ℕ) (ha : sa + ov ≤ 1026)
    (hb : sb + ov ≤ 1026) :
    ∑ i ∈ Finset.range ov,
        (altSig.getD (sa + i) 0 - 0) * (altSig.getD (sb + i) 0 - 0) =
      (ov : ℝ) * (-1) ^ (sa + sb) := by
  have hterm : ∀ i ∈ Finset.range ov,
      (altSig.getD (sa + i) 0 - 0) * (altSig.getD (sb + i) 0 - 0) =
        (-1 : ℝ) ^ (sa + sb) := by
    intro i hi
    have hi2 := Finset.mem_range.mp hi
    rw [altSig_getD (sa + i) (by omega), altSig_getD (sb + i) (by omega),
      sub_zero, sub_zero, ← pow_add]
    rw [show sa + i + (sb + i) = (sa + sb) + (i + i) by ring]
    rw [pow_add, neg_one_pow_double, mul_one]
  rw [Finset.sum_congr rfl hterm, Finset.sum_const, Finset.card_range,
    nsmul_eq_mul]

theorem corr_at_altSig (lag : ℤ) (hlag : lag.natAbs ≤ 2) :
    corr_at altSig altSig 1026 0 0 lag =
      some ((-1 : ℝ) ^ lag.natAbs) := by
  have hovge : 1024 ≤ 1026 - lag.natAbs := by omega
  have hcast : (1024 : ℝ) ≤ ((1026 - lag.natAbs : ℕ) : ℝ) := by
    exact_mod_cast hovge
  simp only [corr_at, corr_sums]
  rw [if_neg (by omega)]
  have hmain : ∀ sa sb : ℕ, sa + sb = lag.natAbs → sa ≤ 2 → sb ≤ 2 →
      (if Real.sqrt
          ((∑ i ∈ Finset.range (1026 - lag.natAbs),
            (altSig.getD (sa + i) 0 - 0) * (altSig.getD (sa + i) 0 - 0)) *
           (∑ i ∈ Finset.range (1026 - lag.natAbs),
            (altSig.getD (sb + i) 0 - 0) * (altSig.getD (sb + i) 0 - 0))) < 1e-8
        then none
        else some
          ((∑ i ∈ Finset.range (1026 - lag.natAbs),
            (altSig.getD (sa + i) 0 - 0) * (altSig.getD (sb + i) 0 - 0)) /
            Real.sqrt
            ((∑ i ∈ Finset.range (1026 - lag.natAbs),
              (altSig.getD (sa + i) 0 - 0) * (altSig.getD (sa + i) 0 - 0)) *
             (∑ i ∈ Finset.range (1026 - lag.natAbs),
              (altSig.getD (sb + i) 0 - 0) * (altSig.getD (sb + i) 0 - 0))))) =
        some ((-1 : ℝ) ^ lag.natAbs) := by
    intro sa sb hsum hsa hsb
    have hab := altSig_prod_sum sa sb (1026 - lag.natAbs)
      (by omega) (by omega)
    have haa := altSig_prod_sum sa sa (1026 - lag.natAbs)
      (by omega) (by omega)
    have hbb := altSig_prod_sum sb sb (1026 - lag.natAbs)
      (by omega) (by omega)
    rw [hab, haa, hbb, neg_one_pow_double, neg_one_pow_double, mul_one, hsum]
    have hsqrt : Real.sqrt (((1026 - lag.natAbs : ℕ) : ℝ) *
        ((1026 - lag.natAbs : ℕ) : ℝ)) = ((1026 - lag.natAbs : ℕ) : ℝ) :=
      Real.sqrt_mul_self (by positivity)
    rw [hsqrt, if_neg (by norm_num; linarith)]
    rw [mul_comm, mul_div_assoc, div_self (by linarith), mul_one]
  by_cases hsign : 0 ≤ lag
  · rw [if_pos hsign, if_pos hsign]
    exact hmain 0 lag.natAbs (by omega) (by omega) hlag
  · rw [if_neg hsign, if_neg hsign]
    exact hmain lag.natAbs 0 (by omega) hlag (by omega)

theorem alt_corr_neg2 : corr_at altSig altSig 1026 0 0 (-2) = some 1 := by
  rw [corr_at_altSig (-2) (by decide)]
  norm_num

theorem alt_corr_neg1 : corr_at altSig altSig 1026 0 0 (-1) = some (-1) := by
  rw [corr_at_altSig (-1) (by decide)]
  norm_num

theorem alt_corr_zero : corr_at altSig altSig 1026 0 0 0 = some 1 := by
  rw [corr_at_altSig 0 (by decide)]
  norm_num

theorem alt_corr_one : corr_at altSig altSig 1026 0 0 1 = some (-1) := by
  rw [corr_at_altSig 1 (by decide)]
  norm_num

theorem alt_corr_two : corr_at altSig altSig 1026 0 0 2 = some 1 := by
  rw [corr_at_altSig 2 (by decide)]
  norm_num

theorem alt_find_eq : find_best_lag altSig altSig 1026 2 = (1, -2, 5) := by
  rw [find_best_lag, altSig_mean]
  have hcand : lag_candidates 2 = [-2, -1, 0, 1, 2] := by
    rw [lag_candidates]
    decide
  rw [hcand, lag_scan]
  have s1 : lag_step (corr_at altSig altSig 1026 0 0) (-1, 0, 0) (-2) =
      (1, -2, 1) := by
    simp only [lag_step, alt_corr_neg2]
    norm_num
  have s2 : lag_step (corr_at altSig altSig 1026 0 0) (1, -2, 1) (-1) =
      (1, -2, 2) := by
    simp only [lag_step, alt_corr_neg1]
    norm_num
  have s3 : lag_step (corr_at altSig altSig 1026 0 0) (1, -2, 2) 0 =
      (1, -2, 3) := by
    simp only [lag_step, alt_corr_zero]
    norm_num
  have s4 : lag_step (corr_at altSig altSig 1026 0 0) (1, -2, 3) 1 =
      (1, -2, 4) := by
    simp only [lag_step, alt_corr_one]
    norm_num
  have s5 : lag_step (corr_at altSig altSig 1026 0 0) (1, -2, 4) 2 =
      (1, -2, 5) := by
    simp only [lag_step, alt_corr_two]
    norm_num
  simp only [List.foldl_cons, List.foldl_nil]
  rw [s1, s2, s3, s4, s5]

/-- Claim C4 counterexample: on the 1026-sample alternating ±1 signal (used
for both streams) with `max_lag = 2`, the maximal correlation 1 is achieved
at lags -2, 0 and +2; the search returns `best_lag = -2` — the first
maximizer in scan order — although lag 0 also achieves the maximum and has
strictly smaller magnitude, so the returned lag is not the
smallest-magnitude lag achieving the maximum. -/
theorem claim_C4_counterexample :
    find_best_lag altSig altSig 1026 2 = (1, -2, 5) ∧
    corr_at altSig altSig 1026 (signal_mean altSig 1026)
      (signal_mean altSig 1026) 0 = some 1 ∧
    ¬ (-2 : ℤ).natAbs ≤ (0 : ℤ).natAbs := by
  refine ⟨alt_find_eq, ?_, by decide⟩
  rw [altSig_mean]
  exact alt_corr_zero

/-- Witness for the amended C4 at the alternating signal: the returned lag
-2 is a candidate achieving the best correlation 1, every computed
correlation is at most 1, and every candidate smaller than -2 has a strictly
smaller correlation. -/
theorem claim_C4_witness :
    find_best_lag altSig altSig 1026 2 = (1, -2, 5) ∧
    ((∀ lag : ℤ, lag ∈ lag_candidates 2 ↔ -(2 : ℤ) ≤ lag ∧ lag ≤ 2) ∧
     (-2 : ℤ) ∈ lag_candidates 2 ∧
     corr_at altSig altSig 1026 (signal_mean altSig 1026)
       (signal_mean altSig 1026) (-2) = some 1 ∧
     (∀ lag ∈ lag_candidates 2, ∀ c,
       corr_at altSig altSig 1026 (signal_mean altSig 1026)
         (signal_mean altSig 1026) lag = some c → c ≤ 1) ∧
     (∀ lag ∈ lag_candidates 2, lag < -2 → ∀ c,
       corr_at altSig altSig 1026 (signal_mean altSig 1026)
         (signal_mean altSig 1026) lag = some c → c < 1)) := by
  have hx : ∃ lag ∈ lag_candidates 2, ∃ c,
      corr_at altSig altSig 1026 (signal_mean altSig 1026)
        (signal_mean altSig 1026) lag = some c ∧ (-1 : ℝ) < c := by
    refine ⟨0, (lag_candidates_mem 2 0).mpr (by norm_num), 1, ?_, by norm_num⟩
    rw [altSig_mean]
    exact alt_corr_zero
  have h := claim_C4_amended altSig altSig 1026 2 1 (-2) 5 alt_find_eq hx
  exact ⟨alt_find_eq, h⟩

/-! ### Silent-signal lemmas -/

theorem replicate_getD_zero (n i : ℕ) :
    (List.replicate n (0 : ℝ)).getD i 0 = 0 := by
  by_cases h : i < n
  · rw [List.getD_eq_getElem _ _ (by simpa using h), List.getElem_replicate]
  · rw [List.getD_eq_default _ _ (by simpa using h)]

theorem read_recent_zero (c p f : ℕ) :
    read_recent (fun _ => (0 : ℝ)) c p f = List.replicate f 0 := by
  rw [read_recent, List.map_const', List.length_range]

theorem preEmphGo_zero (k : ℕ) :
    preEmphGo (0 : ℝ) (List.replicate k 0) = List.replicate k 0 := by
  induction k with
  | zero => rfl
  | succ n ih =>
    rw [List.replicate_succ, preEmphGo, ih]
    norm_num

theorem apply_pre_emphasis_zero (f : ℕ) :
    apply_pre_emphasis (List.replicate f (0 : ℝ)) = List.replicate f 0 := by
  by_cases h : (List.replicate f (0 : ℝ)).length < 2
  · rw [apply_pre_emphasis.eq_def, if_pos h]
  · have h2 : 2 ≤ f := by
      rw [List.length_replicate] at h
      omega
    obtain ⟨m, rfl⟩ : ∃ m, f = m + 1 := ⟨f - 1, by omega⟩
    rw [List.replicate_succ]
    rw [apply_pre_emphasis.eq_def,
      if_neg (by simp only [List.length_cons, List.length_replicate]; omega)]
    show 0 :: preEmphGo 0 (List.replicate m 0) = 0 :: List.replicate m 0
    rw [preEmphGo_zero]

theorem apply_hann_window_zero (f : ℕ) :
    apply_hann_window (List.replicate f (0 : ℝ)) = List.replicate f 0 := by
  rw [apply_hann_window]
  by_cases h : (List.replicate f (0 : ℝ)).length ≤ 1
  · rw [if_pos h]
  · rw [if_neg h]
    have hmap : ∀ i ∈ List.range (List.replicate f (0 : ℝ)).length,
        (List.replicate f (0 : ℝ)).getD i 0 *
          (1 / 2 * (1 - Real.cos (2 * Real.pi * i /
            (((List.replicate f (0 : ℝ)).length : ℝ) - 1)))) = 0 := by
      intro i _
      rw [replicate_getD_zero]
      ring
    rw [List.map_congr_left hmap, List.map_const', List.length_range,
      List.length_replicate]

theorem zeroSnap_eq : zeroSnap = List.replicate 1024 0 := by
  rw [zeroSnap, read_recent_zero, apply_pre_emphasis_zero,
    apply_hann_window_zero]

theorem signal_mean_replicate_zero (n f : ℕ) :
    signal_mean (List.replicate n (0 : ℝ)) f = 0 := by
  rw [signal_mean]
  have hz : ∀ i ∈ Finset.range f, (List.replicate n (0 : ℝ)).getD i 0 = 0 :=
    fun i _ => replicate_getD_zero n i
  rw [Finset.sum_congr rfl hz, Finset.sum_const]
  norm_num

theorem corr_at_replicate_zero (n m frames : ℕ) (lag : ℤ) :
    corr_at (List.replicate n 0) (List.replicate m 0) frames 0 0 lag =
      none := by
  simp only [corr_at, corr_sums]
  by_cases h : frames - lag.natAbs < 1024
  · rw [if_pos h]
  · rw [if_neg h]
    have hz2 : ∑ i ∈ Finset.range (frames - lag.natAbs),
        ((List.replicate n (0 : ℝ)).getD
            ((if 0 ≤ lag then 0 else lag.natAbs) + i) 0 - 0) *
          ((List.replicate n (0 : ℝ)).getD
            ((if 0 ≤ lag then 0 else lag.natAbs) + i) 0 - 0) = 0 := by
      refine Finset.sum_eq_zero ?_
      intro i _
      rw [replicate_getD_zero]
      ring
    have hz3 : ∑ i ∈ Finset.range (frames - lag.natAbs),
        ((List.replicate m (0 : ℝ)).getD
            ((if 0 ≤ lag then lag.natAbs else 0) + i) 0 - 0) *
          ((List.replicate m (0 : ℝ)).getD
            ((if 0 ≤ lag then lag.natAbs else 0) + i) 0 - 0) = 0 := by
      refine Finset.sum_eq_zero ?_
      intro i _
      rw [replicate_getD_zero]
      ring
    rw [hz2, hz3]
    rw [if_pos (by rw [mul_zero, Real.sqrt_zero]; norm_num)]

/-- Claim C10: the Pearson division of the lag search is always guarded — a
lag whose overlap `frames - |lag|` is below 1024, or whose denominator
`sqrt (sum_a2 * sum_b2)` is below 1e-8, is skipped (`corr_at` returns `none`
before any division); when every candidate lag is skipped the scan state
stays at its initial `(best_corr, best_lag, lag_count) = (-1, 0, 0)`; and in
that case `estimate_delay` fails through the below-threshold branch
(`-1 < 0.6`) instead of returning an arbitrary lag or dividing by a
near-zero denominator. -/
theorem claim_C10_guarded_division :
    (∀ (ref tgt : List ℝ) (frames : ℕ) (rm tm : ℝ) (lag : ℤ),
      frames - lag.natAbs < 1024 → corr_at ref tgt frames rm tm lag = none) ∧
    (∀ (ref tgt : List ℝ) (frames : ℕ) (rm tm : ℝ) (lag : ℤ),
      Real.sqrt
          ((corr_sums ref tgt rm tm (if 0 ≤ lag then 0 else lag.natAbs)
              (if 0 ≤ lag then lag.natAbs else 0) (frames - lag.natAbs)).2.1 *
            (corr_sums ref tgt rm tm (if 0 ≤ lag then 0 else lag.natAbs)
              (if 0 ≤ lag then lag.natAbs else 0) (frames - lag.natAbs)).2.2) <
          1e-8 →
      corr_at ref tgt frames rm tm lag = none) ∧
    (∀ (corrf : ℤ → Option ℝ) (lags : List ℤ),
      (∀ l ∈ lags, corrf l = none) → lag_scan corrf lags = (-1, 0, 0)) ∧
    (∀ (dm : DelayMeter) (r t : List ℝ) (f : ℕ),
      copy_recent dm = some (r, t, f) →
      (∀ lag ∈ lag_candidates (search_max_lag dm f),
        corr_at r t f (signal_mean r f) (signal_mean t f) lag = none) →
      estimate_delay dm = none) := by
  refine ⟨?_, ?_, lag_scan_all_none, ?_⟩
  · intro ref tgt frames rm tm lag h
    simp only [corr_at]
    rw [if_pos h]
  · intro ref tgt frames rm tm lag h
    simp only [corr_at]
    by_cases hov : frames - lag.natAbs < 1024
    · rw [if_pos hov]
    · rw [if_neg hov]
      rw [if_pos h]
  · intro dm r t f hsnap hnone
    simp only [estimate_delay, hsnap]
    have hscan : find_best_lag r t f (search_max_lag dm f) = (-1, 0, 0) := by
      rw [find_best_lag]
      exact lag_scan_all_none _ _ hnone
    rw [hscan]
    rw [if_pos (by norm_num [MIN_CORR_THRESHOLD] : (-1 : ℝ) < MIN_CORR_THRESHOLD)]

/-- Witness for C10 at the silent meter `dmZero`: the snapshot succeeds with
1024 all-zero conditioned samples, every candidate lag is skipped by the
denominator guard, and `estimate_delay` fails. -/
theorem claim_C10_witness :
    copy_recent dmZero = some (zeroSnap, zeroSnap, 1024) ∧
    (∀ lag ∈ lag_candidates (search_max_lag dmZero 1024),
      corr_at zeroSnap zeroSnap 1024 (signal_mean zeroSnap 1024)
        (signal_mean zeroSnap 1024) lag = none) ∧
    estimate_delay dmZero = none := by
  have hsnap : copy_recent dmZero = some (zeroSnap, zeroSnap, 1024) := rfl
  have hnone : ∀ lag ∈ lag_candidates (search_max_lag dmZero 1024),
      corr_at zeroSnap zeroSnap 1024 (signal_mean zeroSnap 1024)
        (signal_mean zeroSnap 1024) lag = none := by
    intro lag _
    rw [zeroSnap_eq, signal_mean_replicate_zero, corr_at_replicate_zero]
  exact ⟨hsnap, hnone,
    claim_C10_guarded_division.2.2.2 dmZero zeroSnap zeroSnap 1024 hsnap hnone⟩

/-- Claim C1: when a measurement reaches the correlation search (a target is
bound and the snapshot succeeds), the stored result is valid exactly when
the best correlation found over the lag search is at least the fixed 0.6
threshold; on success the reported delay is
`best_lag * 1000 / sample_rate` milliseconds and the notes branch is `lags`
when the delay is positive, `leads` when negative and `aligned` when zero;
when the best correlation is below 0.6 the result is invalid with the
low-confidence reason text. -/
theorem claim_C1_measure_threshold (dm : DelayMeter) (now : String)
    (r t : List ℝ) (frames : ℕ) (htarget : dm.hasTarget = true)
    (hsnap : copy_recent dm = some (r, t, frames)) :
    ((perform_measure dm now).1.last_delay_valid = true ↔
      MIN_CORR_THRESHOLD ≤
        (find_best_lag r t frames (search_max_lag dm frames)).1) ∧
    (MIN_CORR_THRESHOLD ≤
        (find_best_lag r t frames (search_max_lag dm frames)).1 →
      (perform_measure dm now).1.last_delay_ms =
        (((find_best_lag r t frames (search_max_lag dm frames)).2.1 : ℝ) *
            1000) / (dm.sample_rate : ℝ) ∧
      (perform_measure dm now).1.last_note_dir =
        some (if 0 < (perform_measure dm now).1.last_delay_ms then
            NoteDir.lags
          else if (perform_measure dm now).1.last_delay_ms < 0 then
            NoteDir.leads
          else NoteDir.aligned) ∧
      (perform_measure dm now).2 = true) ∧
    ((find_best_lag r t frames (search_max_lag dm frames)).1 <
        MIN_CORR_THRESHOLD →
      (perform_measure dm now).1.last_delay_valid = false ∧
      (perform_measure dm now).1.last_delay_text =
        "Insufficient correlation - check audio levels and similarity") := by
  obtain ⟨hge, hrc, htc, -, -, -⟩ := copy_recent_bounds hsnap
  have hcond1 : ¬ dm.hasTarget = false := by
    rw [htarget]
    exact Bool.noConfusion
  have hcond2 : ¬ ¬ (1024 ≤ dm.ref_count ∧ 1024 ≤ dm.tgt_count) :=
    fun hcon => hcon ⟨by omega, by omega⟩
  by_cases hth : (find_best_lag r t frames (search_max_lag dm frames)).1 <
      MIN_CORR_THRESHOLD
  · have hed : estimate_delay dm = none := by
      simp only [estimate_delay, hsnap]
      rw [if_pos hth]
    rw [perform_measure, if_neg hcond1, if_neg hcond2, hed]
    refine ⟨⟨fun hv => Bool.noConfusion (show false = true from hv), fun hle =>
      absurd hle (not_le.mpr hth)⟩, fun hle =>
      absurd hle (not_le.mpr hth), fun _ => ⟨rfl, rfl⟩⟩
  · have hed : estimate_delay dm =
        some ((((find_best_lag r t frames (search_max_lag dm frames)).2.1 :
          ℝ) * 1000) / (dm.sample_rate : ℝ),
          (find_best_lag r t frames (search_max_lag dm frames)).1) := by
      simp only [estimate_delay, hsnap]
      rw [if_neg hth]
    rw [perform_measure, if_neg hcond1, if_neg hcond2, hed]
    exact ⟨⟨fun _ => le_of_not_lt hth, fun _ => rfl⟩,
      fun _ => ⟨rfl, rfl, rfl⟩, fun hlt => absurd hlt hth⟩

/-- Witness for C1 at the constant-1 meter `dmDemo`, whose snapshot
succeeds with 1024 frames: the validity of the measurement is equivalent to
the search's best correlation clearing the 0.6 threshold. -/
theorem claim_C1_witness :
    dmDemo.hasTarget = true ∧
    copy_recent dmDemo = some (demoSnap, demoSnap, 1024) ∧
    ((perform_measure dmDemo "").1.last_delay_valid = true ↔
      MIN_CORR_THRESHOLD ≤
        (find_best_lag demoSnap demoSnap 1024 (search_max_lag dmDemo 1024)).1) := by
  have hsnap : copy_recent dmDemo = some (demoSnap, demoSnap, 1024) := rfl
  exact ⟨rfl, hsnap,
    (claim_C1_measure_threshold dmDemo "" demoSnap demoSnap 1024 rfl hsnap).1⟩
